import Mathlib

/-!
Shallow embedding of the PC-ALE-PAL hardware-facing core: the radio CAT
codecs (Kenwood, Elecraft, Icom CI-V, Yaesu CAT) from `src/src/radios/`
and the polyphase FIR resampler from `src/src/common/resampler.cpp`,
together with theorems checking the natural-language specification
against the code.

Conventions:
* C++ byte sequences (`std::string` command text, `std::vector<uint8_t>`
  frames, parse buffers) are `List ℕ`, each element a byte value.
* `uint32_t` arithmetic is `ℕ` with an explicit `% 2 ^ 32` wherever the
  C++ computation can wrap; where a computation provably stays below
  `2 ^ 32` for every possible input (each case is noted at the
  definition) the modulus is omitted.
* `std::function` callbacks are opaque; the embedding records whether a
  callback is registered (a `Bool`) and counts invocations / collects the
  bytes that would be handed to it.
* Audio samples are `ℚ`; the claims settled about the resampler concern
  output lengths, zero propagation and index bounds, which do not depend
  on the rounding behaviour of `float`.
-/

namespace PAL

/-- `RadioMode` from `include/pal/radio.h`: the closed 15-variant
vendor-neutral mode enumeration. -/
inductive RadioMode where
  | LSB
  | USB
  | CW
  | FM
  | FMW
  | AM
  | FSK
  | RTTY
  | CW_R
  | TUNE
  | FSK_R
  | DIG
  | DATA_LSB
  | DATA_USB
  | UNKNOWN
deriving DecidableEq, Repr, Fintype

/-- `Channel` from `include/pal/radio.h`.  Field defaults are the C++
member initializers.  `id` is a `uint8_t`, frequencies are `uint32_t`
(held as `ℕ`; width constraints appear as hypotheses where they
matter), `antenna`/`power`/`attenuation` are `int`. -/
structure Channel where
  id : ℕ := 0
  tx_frequency : ℕ := 0
  rx_frequency : ℕ := 0
  tx_mode : RadioMode := RadioMode.USB
  rx_mode : RadioMode := RadioMode.USB
  antenna : ℤ := 1
  power : ℤ := 100
  attenuation : ℤ := 0
  in_use : Bool := false
deriving DecidableEq, Repr

/-- The default-constructed `Channel`. -/
def defaultChannel : Channel := {}

/-- Destination a frame is routed to by the send primitives:
the registered send callback, or the injected serial collaborator. -/
inductive Dest where
  | callback
  | serialPort
deriving DecidableEq, Repr

/-- An emission: destination plus the bytes handed to it. -/
abbrev Emission := Dest × List ℕ

/-! ### Mode tables

The C++ `enum class` mode codes (`KenwoodMode`, `CivMode`, `YaesuMode`)
are plain integer codes; several `YaesuMode` enumerators share one
numeric value (`DIG = DIG_USB = DIG_LSB = 0x0A`), so the tables are
embedded as functions to and from the underlying numeric code, exactly
as the compiled `switch` statements behave. -/

/-- `Kenwood::radio_mode_to_kenwood` (kenwood.cpp): result is the
numeric value of the returned `KenwoodMode` enumerator
(LSB=1, USB=2, CW=3, FM=4, AM=5, FSK=6, CW_R=7, FSK_R=9). -/
def radio_mode_to_kenwood : RadioMode → ℕ
  | RadioMode.LSB => 1
  | RadioMode.USB => 2
  | RadioMode.CW => 3
  | RadioMode.FM => 4
  | RadioMode.AM => 5
  | RadioMode.FSK => 6
  | RadioMode.RTTY => 6
  | RadioMode.CW_R => 7
  | RadioMode.FSK_R => 9
  | RadioMode.DATA_USB => 2
  | RadioMode.DATA_LSB => 1
  | _ => 2

/-- `Kenwood::kenwood_to_radio_mode` (kenwood.cpp): `switch` over the
numeric `KenwoodMode` value, default `USB`. -/
def kenwood_to_radio_mode : ℕ → RadioMode
  | 1 => RadioMode.LSB
  | 2 => RadioMode.USB
  | 3 => RadioMode.CW
  | 4 => RadioMode.FM
  | 5 => RadioMode.AM
  | 6 => RadioMode.FSK
  | 7 => RadioMode.CW_R
  | 9 => RadioMode.FSK_R
  | _ => RadioMode.USB

/-- `IcomCiv::radio_mode_to_civ` (icom_civ.cpp): numeric `CivMode`
values (LSB=0, USB=1, AM=2, CW=3, RTTY=4, FM=5, CW_R=7, RTTY_R=8). -/
def radio_mode_to_civ : RadioMode → ℕ
  | RadioMode.LSB => 0
  | RadioMode.USB => 1
  | RadioMode.AM => 2
  | RadioMode.CW => 3
  | RadioMode.RTTY => 4
  | RadioMode.FM => 5
  | RadioMode.CW_R => 7
  | RadioMode.FSK => 4
  | RadioMode.FSK_R => 8
  | RadioMode.DATA_LSB => 0
  | RadioMode.DATA_USB => 1
  | _ => 1

/-- `IcomCiv::civ_to_radio_mode` (icom_civ.cpp): `switch` over the
numeric `CivMode` value, default `USB`. -/
def civ_to_radio_mode : ℕ → RadioMode
  | 0 => RadioMode.LSB
  | 1 => RadioMode.USB
  | 2 => RadioMode.AM
  | 3 => RadioMode.CW
  | 4 => RadioMode.RTTY
  | 5 => RadioMode.FM
  | 7 => RadioMode.CW_R
  | 8 => RadioMode.FSK_R
  | _ => RadioMode.USB

/-- `YaesuCat::radio_mode_to_yaesu` (yaesu_cat.cpp): numeric
`YaesuMode` values (LSB=0, USB=1, CW=2, CW_R=3, AM=4, FM=8, DIG=0x0A,
PKT=0x0C; DIG_USB and DIG_LSB are also 0x0A).  Note the `switch` has no
`RadioMode::RTTY` case, so RTTY takes the `default` branch (USB). -/
def radio_mode_to_yaesu : RadioMode → ℕ
  | RadioMode.LSB => 0
  | RadioMode.USB => 1
  | RadioMode.CW => 2
  | RadioMode.CW_R => 3
  | RadioMode.AM => 4
  | RadioMode.FM => 8
  | RadioMode.DIG => 10
  | RadioMode.FSK => 10
  | RadioMode.DATA_USB => 10
  | RadioMode.DATA_LSB => 10
  | _ => 1

/-- `YaesuCat::yaesu_to_radio_mode` (yaesu_cat.cpp): `switch` over the
numeric `YaesuMode` value (the `DIG`, `DIG_USB`, `DIG_LSB` enumerators
all equal 0x0A and hit the single `case YaesuMode::DIG`), default
`USB`. -/
def yaesu_to_radio_mode : ℕ → RadioMode
  | 0 => RadioMode.LSB
  | 1 => RadioMode.USB
  | 2 => RadioMode.CW
  | 3 => RadioMode.CW_R
  | 4 => RadioMode.AM
  | 8 => RadioMode.FM
  | 10 => RadioMode.DIG
  | 12 => RadioMode.FSK
  | _ => RadioMode.USB

/-! ### Frequency encodings -/

/-- Bytes of a `String` literal (ASCII code points), for writing the
expected wire text of Kenwood/Elecraft commands. -/
def strBytes (s : String) : List ℕ :=
  s.toList.map Char.toNat

/-- The zero-padded `k`-digit decimal rendering of `n` (most significant
digit first), as plain digit values 0–9.  For `n < 10 ^ k` this is the
output of `printf` with a `%0ku` conversion, digit by digit. -/
def padDigits (k n : ℕ) : List ℕ :=
  (List.range k).map (fun i => n / 10 ^ (k - 1 - i) % 10)

/-- Reading a digit-value list back as a decimal number. -/
def decodeDigits (ds : List ℕ) : ℕ :=
  ds.foldl (fun a d => 10 * a + d) 0

/-- Reading an ASCII-digit byte list back as a decimal number (the
"decodes as decimal" direction for the Kenwood 11-digit field). -/
def decodeAsciiDecimal (bs : List ℕ) : ℕ :=
  decodeDigits (bs.map (fun b => b - 48))

/-- `Kenwood::build_freq_command` (kenwood.cpp):
`snprintf(buf, 16, "F%c%011u;", vfo, freq_hz)`.  `vfo` is the byte of
the VFO letter.  A `uint32_t` has at most 10 decimal digits, so the
`%011u` field is always exactly 11 zero-padded digits and the command
always fits the 16-byte buffer. -/
def build_freq_command (vfo freq_hz : ℕ) : List ℕ :=
  [70, vfo] ++ (padDigits 11 freq_hz).map (fun d => 48 + d) ++ [59]

/-- `Kenwood::build_mode_command` (kenwood.cpp):
`snprintf(buf, 8, "MD%d;", code)`.  Every `KenwoodMode` value the mode
table produces is a single digit (1–9), so `%d` is one ASCII digit. -/
def build_mode_command (mode : RadioMode) : List ℕ :=
  [77, 68, 48 + radio_mode_to_kenwood mode, 59]

/-- `IcomCiv::freq_to_bcd` (icom_civ.cpp): `len` BCD bytes, least
significant byte first, two decimal digits per byte (low nibble first).
All C++ arithmetic here is division/remainder on the `uint32_t`
argument, which cannot wrap. -/
def freq_to_bcd : ℕ → ℕ → List ℕ
  | _, 0 => []
  | freq_hz, len + 1 =>
    let lo := freq_hz % 10
    let f1 := freq_hz / 10
    let hi := f1 % 10
    ((hi <<< 4) ||| lo) :: freq_to_bcd (f1 / 10) len

/-- Accumulator loop of `IcomCiv::bcd_to_freq` (icom_civ.cpp).  `freq`
and `mult` are `uint32_t`, so every addition and multiplication is
taken `% 2 ^ 32`. -/
def bcd_to_freq_loop : List ℕ → ℕ × ℕ → ℕ × ℕ
  | [], s => s
  | b :: rest, (freq, mult) =>
    let lo := b &&& 15
    let hi := (b >>> 4) &&& 15
    let freq1 := (freq + lo * mult) % 2 ^ 32
    let mult1 := (mult * 10) % 2 ^ 32
    let freq2 := (freq1 + hi * mult1) % 2 ^ 32
    let mult2 := (mult1 * 10) % 2 ^ 32
    bcd_to_freq_loop rest (freq2, mult2)

/-- `IcomCiv::bcd_to_freq` (icom_civ.cpp): decode BCD bytes, least
significant byte first, starting from `freq = 0`, `mult = 1`. -/
def bcd_to_freq (bcd : List ℕ) : ℕ :=
  (bcd_to_freq_loop bcd (0, 1)).1

/-- `YaesuCat::freq_to_packed_bcd` (yaesu_cat.cpp): truncate to 10 Hz
resolution, then pack the low 8 decimal digits into 4 bytes, most
significant byte first. -/
def freq_to_packed_bcd (freq_hz : ℕ) : List ℕ :=
  let t := freq_hz / 10
  [((t / 10000000 % 10) <<< 4) ||| (t / 1000000 % 10),
   ((t / 100000 % 10) <<< 4) ||| (t / 10000 % 10),
   ((t / 1000 % 10) <<< 4) ||| (t / 100 % 10),
   ((t / 10 % 10) <<< 4) ||| (t % 10)]

/-- `YaesuCat::packed_bcd_to_freq` (yaesu_cat.cpp).  Each nibble is at
most 15, so the digit sum is at most `15 * 11111111` and the final
`* 10` is at most 1,666,666,650: every intermediate `uint32_t` value is
below `2 ^ 31`, so no modulus is needed for any byte input. -/
def packed_bcd_to_freq (bcd : List ℕ) : ℕ :=
  let b0 := bcd.getD 0 0
  let b1 := bcd.getD 1 0
  let b2 := bcd.getD 2 0
  let b3 := bcd.getD 3 0
  (((b0 >>> 4) &&& 15) * 10000000 + (b0 &&& 15) * 1000000 +
   ((b1 >>> 4) &&& 15) * 100000 + (b1 &&& 15) * 10000 +
   ((b2 >>> 4) &&& 15) * 1000 + (b2 &&& 15) * 100 +
   ((b3 >>> 4) &&& 15) * 10 + (b3 &&& 15)) * 10

/-! ### Kenwood codec (kenwood.cpp)

The codec instance state: the injected serial collaborator is recorded
as present/absent (`serial`), the two `std::function` callbacks as
registered/unregistered, and the parse buffer as a byte list. -/

structure KenwoodState where
  serial : Bool
  ready : Bool := false
  transmitting : Bool := false
  currentChannel : Channel := {}
  sendCallback : Bool := false
  ackCallback : Bool := false
  rxBuffer : List ℕ := []
deriving DecidableEq, Repr

/-- `Kenwood::Kenwood(ISerial*)`: members take their initializers,
the serial pointer is stored. -/
def mkKenwood (serial : Bool) : KenwoodState :=
  { serial := serial }

/-- `Kenwood::send_command` (kenwood.cpp): route the command bytes to
the send callback if registered, else to the serial collaborator if
present, else drop them. -/
def kenwood_send_command (s : KenwoodState) (cmd : List ℕ) : List Emission :=
  if s.sendCallback then [(Dest.callback, cmd)]
  else if s.serial then [(Dest.serialPort, cmd)]
  else []

/-- `Kenwood::initialize`: clear the parse buffer, mark ready,
return true. -/
def kenwood_init (s : KenwoodState) : Bool × KenwoodState :=
  (true, { s with rxBuffer := [], ready := true })

/-- `Kenwood::shutdown`: mark not ready. -/
def kenwood_shutdown (s : KenwoodState) : KenwoodState :=
  { s with ready := false }

/-- `Kenwood::start`: return the readiness flag. -/
def kenwood_start (s : KenwoodState) : Bool :=
  s.ready

/-- `Kenwood::stop`: nothing to do. -/
def kenwood_stop (s : KenwoodState) : KenwoodState :=
  s

/-- `Kenwood::set_channel` (kenwood.cpp): fail unless ready and the
serial pointer is non-null; otherwise send the VFO-A frequency command
then the mode command, store the channel, return true. -/
def kenwood_set_channel (s : KenwoodState) (c : Channel) :
    Bool × KenwoodState × List Emission :=
  if !s.ready || !s.serial then (false, s, [])
  else
    let e1 := kenwood_send_command s (build_freq_command 65 c.rx_frequency)
    let e2 := kenwood_send_command s (build_mode_command c.rx_mode)
    (true, { s with currentChannel := c }, e1 ++ e2)

/-- `Kenwood::get_channel`. -/
def kenwood_get_channel (s : KenwoodState) : Channel :=
  s.currentChannel

/-- `Kenwood::set_ptt` (kenwood.cpp): no-op unless ready with non-null
serial; otherwise send `TX;`/`RX;` and update the transmitting flag. -/
def kenwood_set_ptt (s : KenwoodState) (transmit : Bool) :
    KenwoodState × List Emission :=
  if !s.ready || !s.serial then (s, [])
  else
    ({ s with transmitting := transmit },
     kenwood_send_command s (if transmit then strBytes "TX;" else strBytes "RX;"))

/-- `Kenwood::is_transmitting`. -/
def kenwood_is_transmitting (s : KenwoodState) : Bool :=
  s.transmitting

/-- `Kenwood::is_ready`. -/
def kenwood_is_ready (s : KenwoodState) : Bool :=
  s.ready

/-- `Kenwood::get_port_config`. -/
def kenwood_get_port_config : String :=
  "9600,n,8,1"

/-- `Kenwood::register_send_callback`: install (or replace) the send
callback — afterwards one is registered. -/
def kenwood_register_send_callback (s : KenwoodState) : KenwoodState :=
  { s with sendCallback := true }

/-- `Kenwood::register_ack_callback`. -/
def kenwood_register_ack_callback (s : KenwoodState) : KenwoodState :=
  { s with ackCallback := true }

/-- One iteration of the `Kenwood::process_response` loop
(kenwood.cpp): append the byte; on `';'` (59) invoke the ack callback
if registered and clear the buffer; then clear the buffer if its size
exceeds 256.  `acks` counts ack-callback invocations. -/
def kenwood_process_byte (p : KenwoodState × ℕ) (c : ℕ) : KenwoodState × ℕ :=
  let s := p.1
  let buf0 := s.rxBuffer ++ [c]
  let step :=
    if c = 59 then ([], if s.ackCallback then p.2 + 1 else p.2)
    else (buf0, p.2)
  let buf := if 256 < step.1.length then [] else step.1
  ({ s with rxBuffer := buf }, step.2)

/-- `Kenwood::process_response`: feed each byte through the loop body.
Returns the new state and the number of ack-callback invocations. -/
def kenwood_process_response (s : KenwoodState) (data : List ℕ) :
    KenwoodState × ℕ :=
  data.foldl kenwood_process_byte (s, 0)

/-! ### Elecraft codec (elecraft.cpp)

`class Elecraft : public Kenwood` overrides only `get_port_config` and
adds `set_power`/`set_antenna`; every inherited operation is literally
the Kenwood member function running on the same state, so each embeds
as the corresponding Kenwood operation. -/

/-- `Elecraft::Elecraft(ISerial*)`: delegates to the Kenwood
constructor. -/
def mkElecraft (serial : Bool) : KenwoodState :=
  mkKenwood serial

/-- Inherited `Kenwood::initialize`. -/
def elecraft_init : KenwoodState → Bool × KenwoodState :=
  kenwood_init

/-- Inherited `Kenwood::shutdown`. -/
def elecraft_shutdown : KenwoodState → KenwoodState :=
  kenwood_shutdown

/-- Inherited `Kenwood::start`. -/
def elecraft_start : KenwoodState → Bool :=
  kenwood_start

/-- Inherited `Kenwood::stop`. -/
def elecraft_stop : KenwoodState → KenwoodState :=
  kenwood_stop

/-- Inherited `Kenwood::set_channel`. -/
def elecraft_set_channel : KenwoodState → Channel → Bool × KenwoodState × List Emission :=
  kenwood_set_channel

/-- Inherited `Kenwood::get_channel`. -/
def elecraft_get_channel : KenwoodState → Channel :=
  kenwood_get_channel

/-- Inherited `Kenwood::set_ptt`. -/
def elecraft_set_ptt : KenwoodState → Bool → KenwoodState × List Emission :=
  kenwood_set_ptt

/-- Inherited `Kenwood::is_transmitting`. -/
def elecraft_is_transmitting : KenwoodState → Bool :=
  kenwood_is_transmitting

/-- Inherited `Kenwood::is_ready`. -/
def elecraft_is_ready : KenwoodState → Bool :=
  kenwood_is_ready

/-- `Elecraft::get_port_config` (elecraft.cpp). -/
def elecraft_get_port_config : String :=
  "38400,n,8,1"

/-- Inherited `Kenwood::register_send_callback`. -/
def elecraft_register_send_callback : KenwoodState → KenwoodState :=
  kenwood_register_send_callback

/-- Inherited `Kenwood::register_ack_callback`. -/
def elecraft_register_ack_callback : KenwoodState → KenwoodState :=
  kenwood_register_ack_callback

/-- Inherited `Kenwood::process_response`. -/
def elecraft_process_response : KenwoodState → List ℕ → KenwoodState × ℕ :=
  kenwood_process_response

/-- `Elecraft::set_power` (elecraft.cpp):
`snprintf(buf, 8, "PC%03d;", watts)` sent through the inherited
`Kenwood::send_command`.  The digit rendering models `%03d` for
`0 ≤ watts ≤ 999` (three zero-padded digits), the range the radio's
`PC` command takes. -/
def elecraft_set_power (s : KenwoodState) (watts : ℕ) : List Emission :=
  kenwood_send_command s ([80, 67] ++ (padDigits 3 watts).map (fun d => 48 + d) ++ [59])

/-- `Elecraft::set_antenna` (elecraft.cpp):
`snprintf(buf, 8, "AN%d;", ant)` sent through the inherited
`Kenwood::send_command`; models `%d` for a single-digit antenna
number. -/
def elecraft_set_antenna (s : KenwoodState) (ant : ℕ) : List Emission :=
  kenwood_send_command s ([65, 78, 48 + ant % 10, 59])

/-! ### Icom CI-V codec (icom_civ.cpp) -/

structure IcomState where
  serial : Bool
  radioAddr : ℕ
  controllerAddr : ℕ := 224
  ready : Bool := false
  transmitting : Bool := false
  currentChannel : Channel := {}
  sendCallback : Bool := false
  ackCallback : Bool := false
  rxBuffer : List ℕ := []
deriving DecidableEq, Repr

/-- `IcomCiv::IcomCiv(ISerial*, uint8_t)`. -/
def mkIcom (serial : Bool) (radioAddr : ℕ) : IcomState :=
  { serial := serial, radioAddr := radioAddr }

/-- `IcomCiv::build_frame(cmd, data, len)` (icom_civ.cpp):
`FE FE <radio_addr> <controller_addr> <cmd> <data...> FD`. -/
def icom_build_frame (s : IcomState) (cmd : ℕ) (data : List ℕ) : List ℕ :=
  [254, 254, s.radioAddr, s.controllerAddr, cmd] ++ data ++ [253]

/-- `IcomCiv::build_frame(cmd, subcmd, data, len)` (icom_civ.cpp). -/
def icom_build_frame_sub (s : IcomState) (cmd subcmd : ℕ) (data : List ℕ) : List ℕ :=
  [254, 254, s.radioAddr, s.controllerAddr, cmd, subcmd] ++ data ++ [253]

/-- `IcomCiv::send_frame` (icom_civ.cpp): callback if registered, else
serial, else drop. -/
def icom_send_frame (s : IcomState) (frame : List ℕ) : List Emission :=
  if s.sendCallback then [(Dest.callback, frame)]
  else if s.serial then [(Dest.serialPort, frame)]
  else []

/-- `IcomCiv::initialize`. -/
def icom_init (s : IcomState) : Bool × IcomState :=
  (true, { s with rxBuffer := [], ready := true })

/-- `IcomCiv::shutdown`. -/
def icom_shutdown (s : IcomState) : IcomState :=
  { s with ready := false }

/-- `IcomCiv::set_channel` (icom_civ.cpp): fail unless ready with
non-null serial; otherwise send command 0x05 with the 5-byte BCD
frequency, then command 0x06 with the mode byte, store the channel. -/
def icom_set_channel (s : IcomState) (c : Channel) :
    Bool × IcomState × List Emission :=
  if !s.ready || !s.serial then (false, s, [])
  else
    let e1 := icom_send_frame s (icom_build_frame s 5 (freq_to_bcd c.rx_frequency 5))
    let e2 := icom_send_frame s (icom_build_frame s 6 [radio_mode_to_civ c.rx_mode])
    (true, { s with currentChannel := c }, e1 ++ e2)

/-- `IcomCiv::get_channel`. -/
def icom_get_channel (s : IcomState) : Channel :=
  s.currentChannel

/-- One iteration of the `IcomCiv::process_response` loop
(icom_civ.cpp): append the byte; on `0xFD` (253), if the buffer holds at
least 6 bytes and starts with the double preamble `0xFE 0xFE` and the
byte at offset 4 is `0xFB` (ACK), invoke the ack callback if
registered; clear the buffer; then clear again if its size exceeds
256. -/
def icom_process_byte (p : IcomState × ℕ) (c : ℕ) : IcomState × ℕ :=
  let s := p.1
  let buf0 := s.rxBuffer ++ [c]
  let step :=
    if c = 253 then
      ([],
       if 6 ≤ buf0.length ∧ buf0.getD 0 0 = 254 ∧ buf0.getD 1 0 = 254 ∧
          buf0.getD 4 0 = 251 ∧ s.ackCallback then p.2 + 1 else p.2)
    else (buf0, p.2)
  let buf := if 256 < step.1.length then [] else step.1
  ({ s with rxBuffer := buf }, step.2)

/-- `IcomCiv::process_response`. -/
def icom_process_response (s : IcomState) (data : List ℕ) : IcomState × ℕ :=
  data.foldl icom_process_byte (s, 0)

/-! ### Yaesu CAT codec (yaesu_cat.cpp) -/

structure YaesuState where
  serial : Bool
  ready : Bool := false
  transmitting : Bool := false
  currentChannel : Channel := {}
  sendCallback : Bool := false
  ackCallback : Bool := false
deriving DecidableEq, Repr

/-- `YaesuCat::YaesuCat(ISerial*)`. -/
def mkYaesu (serial : Bool) : YaesuState :=
  { serial := serial }

/-- `YaesuCat::build_command` (yaesu_cat.cpp): the fixed 5-byte frame
`[P1 P2 P3 P4 CMD]`. -/
def yaesu_build_command (cmd p1 p2 p3 p4 : ℕ) : List ℕ :=
  [p1, p2, p3, p4, cmd]

/-- `YaesuCat::send_command` (yaesu_cat.cpp): callback if registered,
else serial, else drop. -/
def yaesu_send_command (s : YaesuState) (cmd : List ℕ) : List Emission :=
  if s.sendCallback then [(Dest.callback, cmd)]
  else if s.serial then [(Dest.serialPort, cmd)]
  else []

/-- `YaesuCat::initialize`. -/
def yaesu_init (s : YaesuState) : Bool × YaesuState :=
  (true, { s with ready := true })

/-- `YaesuCat::set_channel` (yaesu_cat.cpp): fail unless ready with
non-null serial; otherwise send the packed-BCD frequency under command
0x01, then the mode code under command 0x07, store the channel. -/
def yaesu_set_channel (s : YaesuState) (c : Channel) :
    Bool × YaesuState × List Emission :=
  if !s.ready || !s.serial then (false, s, [])
  else
    let bcd := freq_to_packed_bcd c.rx_frequency
    let e1 := yaesu_send_command s
      (yaesu_build_command 1 (bcd.getD 0 0) (bcd.getD 1 0) (bcd.getD 2 0) (bcd.getD 3 0))
    let e2 := yaesu_send_command s
      (yaesu_build_command 7 (radio_mode_to_yaesu c.rx_mode) 0 0 0)
    (true, { s with currentChannel := c }, e1 ++ e2)

/-- `YaesuCat::get_channel`. -/
def yaesu_get_channel (s : YaesuState) : Channel :=
  s.currentChannel

/-- `YaesuCat::process_response` (yaesu_cat.cpp): any non-empty receipt
invokes the ack callback (if registered) once; no state changes. -/
def yaesu_process_response (s : YaesuState) (data : List ℕ) : YaesuState × ℕ :=
  (s, if 0 < data.length ∧ s.ackCallback then 1 else 0)

/-! ### Resampler (resampler.cpp)

Samples and coefficients are `ℚ`.  `design_filter` computes windowed
sinc coefficients with `float` transcendentals; none of the claims
settled here depend on the coefficient values, so construction takes
the coefficient vector as a parameter of the right length (the
structure of every other member mirrors the constructor exactly). -/

structure Resampler where
  ratio_ : ℕ
  taps_per_phase_ : ℕ
  coeffs_ : List ℚ
  history_ : List ℚ
  history_pos_ : ℕ
deriving DecidableEq, Repr

/-- `total_taps_ = ratio * taps_per_phase` (resampler.cpp
constructor). -/
def Resampler.totalTaps (r : Resampler) : ℕ :=
  r.ratio_ * r.taps_per_phase_

/-- `Resampler::Resampler(ratio, taps_per_phase)` (resampler.cpp):
history of length `total_taps_` of zeros, position 0, coefficients from
`design_filter` (given here as `coeffs`). -/
def mkResampler (ratio_in taps_per_phase : ℕ) (coeffs : List ℚ) : Resampler :=
  { ratio_ := ratio_in
    taps_per_phase_ := taps_per_phase
    coeffs_ := coeffs
    history_ := List.replicate (ratio_in * taps_per_phase) 0
    history_pos_ := 0 }

/-- `Resampler::apply_filter` (resampler.cpp): inner product of the
coefficients with the circular history read starting at
`history_pos_`. -/
def Resampler.applyFilter (r : Resampler) : ℚ :=
  (List.range r.totalTaps).foldl
    (fun sum i =>
      sum + r.history_.getD ((r.history_pos_ + i) % r.totalTaps) 0 * r.coeffs_.getD i 0)
    0

/-- The two history-mutating lines shared by `decimate` and
`interpolate` (resampler.cpp): write the sample at `history_pos_`, then
advance the position modulo `total_taps_`. -/
def Resampler.push (r : Resampler) (x : ℚ) : Resampler :=
  { r with history_ := r.history_.set r.history_pos_ x
           history_pos_ := (r.history_pos_ + 1) % r.totalTaps }

/-- Loop of `Resampler::decimate` (resampler.cpp): push each input
sample; after every `ratio_`-th push (1-indexed within the call via the
loop counter `i`), append one filtered output. -/
def Resampler.decimateLoop : Resampler → List ℚ → ℕ → List ℚ → Resampler × List ℚ
  | r, [], _, out => (r, out)
  | r, x :: rest, i, out =>
    let r1 := r.push x
    let out1 := if (i + 1) % r1.ratio_ = 0 then out ++ [r1.applyFilter] else out
    Resampler.decimateLoop r1 rest (i + 1) out1

/-- `Resampler::decimate` (resampler.cpp): the loop counter starts at 0
for every call (not persisted across calls). -/
def Resampler.decimate (r : Resampler) (input : List ℚ) : Resampler × List ℚ :=
  Resampler.decimateLoop r input 0 []

/-- Inner (per-input-sample) loop of `Resampler::interpolate`
(resampler.cpp): push `ratio_` values — the input sample times `ratio_`
at phase 0, zero at the other phases — appending one filtered output
after each push. -/
def Resampler.interpolateSample (r : Resampler) (x : ℚ) : Resampler × List ℚ :=
  (List.range r.ratio_).foldl
    (fun p phase =>
      let sample := if phase = 0 then x * (r.ratio_ : ℚ) else 0
      let r1 := p.1.push sample
      (r1, p.2 ++ [r1.applyFilter]))
    (r, [])

/-- `Resampler::interpolate` (resampler.cpp). -/
def Resampler.interpolate (r : Resampler) (input : List ℚ) : Resampler × List ℚ :=
  input.foldl
    (fun p x =>
      let q := Resampler.interpolateSample p.1 x
      (q.1, p.2 ++ q.2))
    (r, [])

/-- `Resampler::reset` (resampler.cpp): `std::fill` the history with
zeros (its length is unchanged) and set the position to 0; the
coefficients are untouched. -/
def Resampler.reset (r : Resampler) : Resampler :=
  { r with history_ := List.replicate r.history_.length 0
           history_pos_ := 0 }

/-- The circular-position invariant of the resampler: the total tap
count is positive, the position is inside the history buffer, and the
history buffer has exactly `total_taps_` entries. -/
def ResamplerInv (r : Resampler) : Prop :=
  0 < r.totalTaps ∧ r.history_pos_ < r.totalTaps ∧ r.history_.length = r.totalTaps

/-! ### Derived notions used by the theorems -/

/-- The channel of the end-to-end scenario of §8:
`Channel{rx_frequency=14250000, rx_mode=USB}`, other fields
default-constructed. -/
def scenarioChannel : Channel :=
  { rx_frequency := 14250000, rx_mode := RadioMode.USB }

/-- Where the send primitives route a frame when the serial
collaborator is present: the callback if one is registered, else the
serial port. -/
def routeDest (sendCallback : Bool) : Dest :=
  if sendCallback then Dest.callback else Dest.serialPort

/-- Kenwood mode round trip: vendor-neutral mode to Kenwood code and
back. -/
def kenwoodRoundTrip (m : RadioMode) : RadioMode :=
  kenwood_to_radio_mode (radio_mode_to_kenwood m)

/-- Icom mode round trip. -/
def civRoundTrip (m : RadioMode) : RadioMode :=
  civ_to_radio_mode (radio_mode_to_civ m)

/-- Yaesu mode round trip. -/
def yaesuRoundTrip (m : RadioMode) : RadioMode :=
  yaesu_to_radio_mode (radio_mode_to_yaesu m)

/-- The non-identity Kenwood round trips produced by the mode tables in
kenwood.cpp: RTTY collapses to FSK; DATA_USB/DATA_LSB collapse to
USB/LSB; modes without a table entry (FMW, TUNE, DIG, UNKNOWN) default
to USB. -/
def kenwoodCollapses : List (RadioMode × RadioMode) :=
  [(RadioMode.RTTY, RadioMode.FSK),
   (RadioMode.DATA_USB, RadioMode.USB),
   (RadioMode.DATA_LSB, RadioMode.LSB),
   (RadioMode.FMW, RadioMode.USB),
   (RadioMode.TUNE, RadioMode.USB),
   (RadioMode.DIG, RadioMode.USB),
   (RadioMode.UNKNOWN, RadioMode.USB)]

/-- The non-identity Icom round trips produced by the mode tables in
icom_civ.cpp: FSK collapses to RTTY; DATA_USB/DATA_LSB collapse to
USB/LSB; unmapped modes default to USB. -/
def civCollapses : List (RadioMode × RadioMode) :=
  [(RadioMode.FSK, RadioMode.RTTY),
   (RadioMode.DATA_USB, RadioMode.USB),
   (RadioMode.DATA_LSB, RadioMode.LSB),
   (RadioMode.FMW, RadioMode.USB),
   (RadioMode.TUNE, RadioMode.USB),
   (RadioMode.DIG, RadioMode.USB),
   (RadioMode.UNKNOWN, RadioMode.USB)]

/-- The non-identity Yaesu round trips produced by the mode tables in
yaesu_cat.cpp: FSK and DATA_USB/DATA_LSB collapse to DIG; RTTY has no
table entry and falls to the default (USB), as do FMW, TUNE, FSK_R and
UNKNOWN. -/
def yaesuCollapses : List (RadioMode × RadioMode) :=
  [(RadioMode.FSK, RadioMode.DIG),
   (RadioMode.DATA_USB, RadioMode.DIG),
   (RadioMode.DATA_LSB, RadioMode.DIG),
   (RadioMode.RTTY, RadioMode.USB),
   (RadioMode.FMW, RadioMode.USB),
   (RadioMode.TUNE, RadioMode.USB),
   (RadioMode.FSK_R, RadioMode.USB),
   (RadioMode.UNKNOWN, RadioMode.USB)]

/-! ## Theorems -/

/-- Claim C1: for a ready codec with a send destination (ready flag set
and the serial collaborator attached — the condition under which
`set_channel` emits; the remaining state is arbitrary), `set_channel`
on `Channel{rx_frequency=14250000, rx_mode=USB}` emits exactly:
Kenwood the ASCII bytes `"FA00014250000;"` then `"MD2;"`; Icom CI-V at
radio address 0x94 the frame `FE FE 94 E0 05 00 00 25 14 00 FD` then
`FE FE 94 E0 06 01 FD`; Yaesu the five bytes `01 42 50 00 01` then
`01 00 00 00 07`. -/
theorem C1_end_to_end_set_channel_emissions
    (tr : Bool) (cur : Channel) (cb ack : Bool) (buf : List ℕ)
    (itr : Bool) (icur : Channel) (icb iack : Bool) (ibuf : List ℕ)
    (ytr : Bool) (ycur : Channel) (ycb yack : Bool) :
    ((kenwood_set_channel
        { serial := true, ready := true, transmitting := tr,
          currentChannel := cur, sendCallback := cb, ackCallback := ack,
          rxBuffer := buf } scenarioChannel).2.2).map Prod.snd =
      [strBytes "FA00014250000;", strBytes "MD2;"] ∧
    ((icom_set_channel
        { serial := true, radioAddr := 148, controllerAddr := 224,
          ready := true, transmitting := itr, currentChannel := icur,
          sendCallback := icb, ackCallback := iack,
          rxBuffer := ibuf } scenarioChannel).2.2).map Prod.snd =
      [[254, 254, 148, 224, 5, 0, 0, 37, 20, 0, 253],
       [254, 254, 148, 224, 6, 1, 253]] ∧
    ((yaesu_set_channel
        { serial := true, ready := true, transmitting := ytr,
          currentChannel := ycur, sendCallback := ycb,
          ackCallback := yack } scenarioChannel).2.2).map Prod.snd =
      [[1, 66, 80, 0, 1], [1, 0, 0, 0, 7]] := by
  refine ⟨?_, ?_, ?_⟩
  · cases cb <;> rfl
  · cases icb <;> rfl
  · cases ycb <;> rfl

/-- Claim C3 counterexample: a ready Kenwood codec constructed with a
null serial pointer but holding a registered send callback: contrary to
the claim, its `set_channel` returns false and emits nothing, because
the guard in `Kenwood::set_channel` tests the serial pointer, not the
callback. -/
theorem C3_counterexample_callback_without_serial :
    (kenwood_set_channel
        ({ serial := false, ready := true, sendCallback := true } : KenwoodState)
        defaultChannel).1 = false ∧
    (kenwood_set_channel
        ({ serial := false, ready := true, sendCallback := true } : KenwoodState)
        defaultChannel).2.2 = [] := by
  decide

/-- Claim C3 (amended): for every codec and every `Channel`,
`set_channel` returns false and emits no bytes unless the codec is
ready and the injected serial pointer is non-null (a registered send
callback alone does not enable it); when ready with non-null serial it
returns true and emits exactly the frequency-set command followed by
the mode-set command, each routed through the send callback if one is
registered, else written to the serial collaborator. -/
theorem C3_set_channel_guard_and_routing :
    (∀ (s : KenwoodState) (c : Channel),
      (kenwood_set_channel s c).1 = (s.ready && s.serial) ∧
      (kenwood_set_channel s c).2.2 =
        (if s.ready && s.serial then
          [(routeDest s.sendCallback, build_freq_command 65 c.rx_frequency),
           (routeDest s.sendCallback, build_mode_command c.rx_mode)]
         else [])) ∧
    (∀ (s : IcomState) (c : Channel),
      (icom_set_channel s c).1 = (s.ready && s.serial) ∧
      (icom_set_channel s c).2.2 =
        (if s.ready && s.serial then
          [(routeDest s.sendCallback, icom_build_frame s 5 (freq_to_bcd c.rx_frequency 5)),
           (routeDest s.sendCallback, icom_build_frame s 6 [radio_mode_to_civ c.rx_mode])]
         else [])) ∧
    (∀ (s : YaesuState) (c : Channel),
      (yaesu_set_channel s c).1 = (s.ready && s.serial) ∧
      (yaesu_set_channel s c).2.2 =
        (if s.ready && s.serial then
          [(routeDest s.sendCallback,
            yaesu_build_command 1 ((freq_to_packed_bcd c.rx_frequency).getD 0 0)
              ((freq_to_packed_bcd c.rx_frequency).getD 1 0)
              ((freq_to_packed_bcd c.rx_frequency).getD 2 0)
              ((freq_to_packed_bcd c.rx_frequency).getD 3 0)),
           (routeDest s.sendCallback,
            yaesu_build_command 7 (radio_mode_to_yaesu c.rx_mode) 0 0 0)]
         else [])) := by
  refine ⟨fun s c => ?_, fun s c => ?_, fun s c => ?_⟩ <;>
    cases hr : s.ready <;> cases hs : s.serial <;> cases hcb : s.sendCallback <;>
      simp [kenwood_set_channel, kenwood_send_command, icom_set_channel,
        icom_send_frame, yaesu_set_channel, yaesu_send_command, routeDest,
        hr, hs, hcb]

/-- Claim C4 counterexample: the Yaesu mode table does not map RTTY
onto the Yaesu digital code: `radio_mode_to_yaesu` has no RTTY case, so
RTTY takes the default branch and maps to the USB code 0x01, while FSK
maps to the digital code 0x0A. -/
theorem C4_counterexample_yaesu_rtty :
    radio_mode_to_yaesu RadioMode.RTTY = 1 ∧
    radio_mode_to_yaesu RadioMode.FSK = 10 ∧
    radio_mode_to_yaesu RadioMode.RTTY ≠ radio_mode_to_yaesu RadioMode.FSK := by
  decide

/-- Claim C4 (amended): for every `RadioMode` value and each codec's
mode-table pair, `native_to_radio (radio_to_native m)` either equals
`m` or is one of that codec's table collapses: for Kenwood, RTTY→FSK,
DATA_USB→USB, DATA_LSB→LSB and unmapped modes→USB (and
`radio_mode_to_kenwood RTTY = radio_mode_to_kenwood FSK`, with the
reverse of that code always FSK); for Icom, FSK→RTTY, DATA_USB→USB,
DATA_LSB→LSB, unmapped→USB; for Yaesu, FSK, DATA_USB and DATA_LSB
collapse to DIG, while RTTY — having no table entry — falls to the
default and collapses to USB, as do FMW, TUNE, FSK_R and UNKNOWN. -/
theorem C4_mode_round_trips :
    (∀ m, kenwoodRoundTrip m = m ∨ (m, kenwoodRoundTrip m) ∈ kenwoodCollapses) ∧
    (∀ m, civRoundTrip m = m ∨ (m, civRoundTrip m) ∈ civCollapses) ∧
    (∀ m, yaesuRoundTrip m = m ∨ (m, yaesuRoundTrip m) ∈ yaesuCollapses) ∧
    radio_mode_to_kenwood RadioMode.RTTY = radio_mode_to_kenwood RadioMode.FSK ∧
    kenwood_to_radio_mode (radio_mode_to_kenwood RadioMode.RTTY) = RadioMode.FSK ∧
    radio_mode_to_yaesu RadioMode.FSK = 10 ∧
    radio_mode_to_yaesu RadioMode.RTTY = 1 := by
  decide

/-- Claim C6: for every codec, `get_channel` returns the last channel
accepted by `set_channel` — after a successful `set_channel c` it
returns `c`, after a failed one the stored channel is unchanged, and on
a freshly constructed codec it returns the default-constructed
`Channel`. -/
theorem C6_get_channel_last_accepted :
    (∀ (s : KenwoodState) (c : Channel),
      kenwood_get_channel (kenwood_set_channel s c).2.1 =
        (if (kenwood_set_channel s c).1 then c else kenwood_get_channel s)) ∧
    (∀ (s : IcomState) (c : Channel),
      icom_get_channel (icom_set_channel s c).2.1 =
        (if (icom_set_channel s c).1 then c else icom_get_channel s)) ∧
    (∀ (s : YaesuState) (c : Channel),
      yaesu_get_channel (yaesu_set_channel s c).2.1 =
        (if (yaesu_set_channel s c).1 then c else yaesu_get_channel s)) ∧
    (∀ b, kenwood_get_channel (mkKenwood b) = defaultChannel) ∧
    (∀ b a, icom_get_channel (mkIcom b a) = defaultChannel) ∧
    (∀ b, yaesu_get_channel (mkYaesu b) = defaultChannel) := by
  refine ⟨fun s c => ?_, fun s c => ?_, fun s c => ?_,
    fun b => rfl, fun b a => rfl, fun b => rfl⟩ <;>
    cases hg : (!s.ready || !s.serial) <;>
      simp [kenwood_set_channel, kenwood_get_channel, icom_set_channel,
        icom_get_channel, yaesu_set_channel, yaesu_get_channel, hg]

/-! ### Helper lemmas for the frequency round trips (C2) -/

/-- Packing two nibbles below 16 with `(hi << 4) | lo` is `16 * hi + lo`,
and the nibble extractions `& 0x0F` / `>> 4 & 0x0F` recover them. -/
theorem nibble_pack_all : ∀ a, a < 16 → ∀ b, b < 16 →
    ((a <<< 4) ||| b = 16 * a + b ∧ ((a <<< 4) ||| b) &&& 15 = b ∧
     (((a <<< 4) ||| b) >>> 4) &&& 15 = a) := by decide

theorem nibble_lo (a b : ℕ) (ha : a < 16) (hb : b < 16) :
    ((a <<< 4) ||| b) &&& 15 = b :=
  (nibble_pack_all a ha b hb).2.1

theorem nibble_hi (a b : ℕ) (ha : a < 16) (hb : b < 16) :
    (((a <<< 4) ||| b) >>> 4) &&& 15 = a :=
  (nibble_pack_all a ha b hb).2.2

theorem yaesu_round_trip (f : ℕ) (hf : f < 10 ^ 9) :
    packed_bcd_to_freq (freq_to_packed_bcd f) = 10 * (f / 10) := by
  have h7 : f / 10 / 10000000 % 10 < 16 := by omega
  have h6 : f / 10 / 1000000 % 10 < 16 := by omega
  have h5 : f / 10 / 100000 % 10 < 16 := by omega
  have h4 : f / 10 / 10000 % 10 < 16 := by omega
  have h3 : f / 10 / 1000 % 10 < 16 := by omega
  have h2 : f / 10 / 100 % 10 < 16 := by omega
  have h1 : f / 10 / 10 % 10 < 16 := by omega
  have h0 : f / 10 % 10 < 16 := by omega
  unfold freq_to_packed_bcd packed_bcd_to_freq
  simp only [List.getD_cons_zero, List.getD_cons_succ]
  rw [nibble_hi _ _ h7 h6, nibble_lo _ _ h7 h6, nibble_hi _ _ h5 h4, nibble_lo _ _ h5 h4,
    nibble_hi _ _ h3 h2, nibble_lo _ _ h3 h2, nibble_hi _ _ h1 h0, nibble_lo _ _ h1 h0]
  omega

/-- Peeling the most significant digit off a zero-padded digit list. -/
theorem padDigits_succ (k n : ℕ) :
    padDigits (k + 1) n = (n / 10 ^ k % 10) :: padDigits k n := by
  unfold padDigits
  rw [List.range_succ_eq_map]
  simp only [List.map_cons, List.map_map]
  refine congrArg₂ List.cons (by norm_num) ?_
  refine List.map_congr_left ?_
  intro j hj
  simp only [Function.comp]
  have he : k + 1 - 1 - Nat.succ j = k - 1 - j := by omega
  rw [he]

/-- Folding the decimal digits of `n` recovers `n` modulo `10 ^ k`. -/
theorem decodeDigits_foldl :
    ∀ (k n a : ℕ),
      (padDigits k n).foldl (fun x d => 10 * x + d) a = a * 10 ^ k + n % 10 ^ k := by
  intro k
  induction k with
  | zero => intro n a; simp [padDigits, Nat.mod_one]
  | succ k ih =>
    intro n a
    rw [padDigits_succ, List.foldl_cons, ih, pow_succ, Nat.mod_mul]
    ring

/-- The 11-digit ASCII field of the Kenwood frequency command decodes
back to the frequency for every `uint32_t` value. -/
theorem kenwood_field_decodes (f : ℕ) (hf : f < 2 ^ 32) :
    decodeAsciiDecimal (((build_freq_command 65 f).drop 2).take 11) = f := by
  have hlen : ((padDigits 11 f).map (fun d => 48 + d)).length = 11 := by
    simp [padDigits]
  have h1 : ((build_freq_command 65 f).drop 2).take 11 =
      (padDigits 11 f).map (fun d => 48 + d) := by
    simp only [build_freq_command, List.cons_append, List.nil_append,
      List.drop_succ_cons, List.drop_zero]
    exact List.take_left' hlen
  rw [h1]
  unfold decodeAsciiDecimal
  rw [List.map_map]
  have h2 : ((fun b => b - 48) ∘ fun d => 48 + d) = id := by
    funext d; simp
  rw [h2, List.map_id]
  unfold decodeDigits
  rw [decodeDigits_foldl]
  have h3 : f % 10 ^ 11 = f :=
    Nat.mod_eq_of_lt (by calc f < 2 ^ 32 := hf
                            _ < 10 ^ 11 := by norm_num)
  omega

/-- The `uint32_t` accumulator loop of `IcomCiv::bcd_to_freq` inverts
`IcomCiv::freq_to_bcd` whenever neither the running sum nor any used
multiplier wraps: decoding `n` encoded bytes adds
`(f mod 10 ^ (2 n)) * mult` to the accumulator. -/
theorem bcd_loop_spec :
    ∀ (n f freq mult : ℕ),
      freq + f % 10 ^ (2 * n) * mult < 2 ^ 32 →
      mult * 10 ^ (2 * n) < 2 ^ 32 * 10 →
      (bcd_to_freq_loop (freq_to_bcd f n) (freq, mult)).1 =
        freq + f % 10 ^ (2 * n) * mult := by
  intro n
  induction n with
  | zero =>
    intro f freq mult h1 h2
    simp [freq_to_bcd, bcd_to_freq_loop, Nat.mod_one]
  | succ n ih =>
    intro f freq mult h1 h2
    have hlo : f % 10 < 16 := by omega
    have hhi : f / 10 % 10 < 16 := by omega
    -- the first byte holds the two lowest digits of f
    have hd2 : f % 100 = f % 10 + 10 * (f / 10 % 10) := by
      have h := @Nat.mod_mul 10 10 f
      norm_num at h
      exact h
    -- f % 10 and f % 100 are at most f % 10 ^ (2 * (n + 1))
    have hdvd10 : f % 10 ≤ f % 10 ^ (2 * (n + 1)) := by
      have hd : (10 : ℕ) ∣ 10 ^ (2 * (n + 1)) := dvd_pow_self 10 (by omega)
      calc f % 10 = f % 10 ^ (2 * (n + 1)) % 10 := (Nat.mod_mod_of_dvd f hd).symm
        _ ≤ f % 10 ^ (2 * (n + 1)) := Nat.mod_le _ _
    have hpowsplit : (10 : ℕ) ^ (2 * (n + 1)) = 100 * 10 ^ (2 * n) := by
      have he : 2 * (n + 1) = 2 + 2 * n := by ring
      rw [he, pow_add]
      norm_num
    have hdvd100 : f % 100 ≤ f % 10 ^ (2 * (n + 1)) := by
      have hd : (100 : ℕ) ∣ 10 ^ (2 * (n + 1)) := ⟨10 ^ (2 * n), hpowsplit⟩
      calc f % 100 = f % 10 ^ (2 * (n + 1)) % 100 := (Nat.mod_mod_of_dvd f hd).symm
        _ ≤ f % 10 ^ (2 * (n + 1)) := Nat.mod_le _ _
    -- splitting the modulus
    have hsplit : f % 10 ^ (2 * (n + 1)) = f % 100 + 100 * (f / 100 % 10 ^ (2 * n)) := by
      rw [hpowsplit, Nat.mod_mul]
    -- no overflow in the first two accumulations
    have hb1 : freq + f % 10 * mult < 2 ^ 32 :=
      lt_of_le_of_lt (by exact Nat.add_le_add_left (Nat.mul_le_mul_right mult hdvd10) freq) h1
    have hm10 : mult * 10 < 2 ^ 32 := by
      have hx : mult * 10 * 10 ^ (2 * n + 1) = mult * 10 ^ (2 * (n + 1)) := by
        rw [show 2 * (n + 1) = (2 * n + 1) + 1 by ring, pow_succ]
        ring
      have hy : (10 : ℕ) ≤ 10 ^ (2 * n + 1) := by
        calc (10 : ℕ) = 10 ^ 1 := by norm_num
          _ ≤ 10 ^ (2 * n + 1) := Nat.pow_le_pow_right (by norm_num) (by omega)
      have : mult * 10 * 10 ^ (2 * n + 1) < 2 ^ 32 * 10 ^ (2 * n + 1) :=
        lt_of_lt_of_le (hx ▸ h2) (Nat.mul_le_mul_left _ hy)
      exact Nat.lt_of_mul_lt_mul_right this
    have hb2 : freq + f % 10 * mult + f / 10 % 10 * (mult * 10) < 2 ^ 32 := by
      have he : freq + f % 10 * mult + f / 10 % 10 * (mult * 10) = freq + f % 100 * mult := by
        rw [hd2]; ring
      rw [he]
      exact lt_of_le_of_lt (Nat.add_le_add_left (Nat.mul_le_mul_right mult hdvd100) freq) h1
    -- unfold one step of the encoder and of the decoder loop
    simp only [freq_to_bcd, bcd_to_freq_loop]
    rw [nibble_lo _ _ hhi hlo, nibble_hi _ _ hhi hlo]
    rw [Nat.mod_eq_of_lt hb1, Nat.mod_eq_of_lt hm10, Nat.mod_eq_of_lt hb2]
    rw [show f / 10 / 10 = f / 100 by omega]
    -- now apply the induction hypothesis with the (possibly wrapped) mult
    rcases n with _ | m
    · -- tail is empty
      simp only [freq_to_bcd, bcd_to_freq_loop]
      have hfin : f % 10 ^ (2 * (0 + 1)) = f % 100 := by norm_num
      rw [hfin, hd2]
      ring
    · -- tail is nonempty and the next mult value does not wrap
      have hm100 : mult * 10 * 10 < 2 ^ 32 := by
        have hx : mult * 100 * 10 ^ (2 * m + 2) = mult * 10 ^ (2 * (m + 1 + 1)) := by
          rw [show 2 * (m + 1 + 1) = (2 * m + 2) + 2 by ring, pow_add]
          ring
        have hy : (10 : ℕ) ≤ 10 ^ (2 * m + 2) := by
          calc (10 : ℕ) = 10 ^ 1 := by norm_num
            _ ≤ 10 ^ (2 * m + 2) := Nat.pow_le_pow_right (by norm_num) (by omega)
        have : mult * 100 * 10 ^ (2 * m + 2) < 2 ^ 32 * 10 ^ (2 * m + 2) :=
          lt_of_lt_of_le (hx ▸ h2) (Nat.mul_le_mul_left _ hy)
        have h100 : mult * 100 < 2 ^ 32 := Nat.lt_of_mul_lt_mul_right this
        calc mult * 10 * 10 = mult * 100 := by ring
          _ < 2 ^ 32 := h100
      rw [Nat.mod_eq_of_lt hm100]
      have heq : freq + f % 10 * mult + f / 10 % 10 * (mult * 10) +
          f / 100 % 10 ^ (2 * (m + 1)) * (mult * 10 * 10) =
          freq + f % 10 ^ (2 * (m + 1 + 1)) * mult := by
        rw [hsplit, hd2]; ring
      have ih2 := ih (f / 100) (freq + f % 10 * mult + f / 10 % 10 * (mult * 10)) (mult * 10 * 10)
        (by rw [heq]; exact h1)
        (by
          have hx : mult * 10 * 10 * 10 ^ (2 * (m + 1)) = mult * 10 ^ (2 * (m + 1 + 1)) := by
            rw [show 2 * (m + 1 + 1) = 2 * (m + 1) + 2 by ring, pow_add]
            ring
          rw [hx]; exact h2)
      rw [ih2, heq]

/-- Claim C2: for every frequency representable in the protocol digit
width, decoding the encoded frequency returns it: Icom
`bcd_to_freq(freq_to_bcd(f, 5), 5) = f` for every `uint32_t` f; Yaesu
`packed_bcd_to_freq(freq_to_packed_bcd(f))` equals `10 * (f / 10)` (the
final decimal digit truncated) for every f below 10^9 Hz, hence equals
`f` when f is a multiple of 10; Kenwood, the 11-digit zero-padded ASCII
field of the emitted frequency command decodes as decimal back to f for
every `uint32_t` f. -/
theorem C2_frequency_round_trips :
    (∀ f, f < 2 ^ 32 → bcd_to_freq (freq_to_bcd f 5) = f) ∧
    (∀ f, f < 10 ^ 9 → packed_bcd_to_freq (freq_to_packed_bcd f) = 10 * (f / 10)) ∧
    (∀ f, f < 10 ^ 9 → f % 10 = 0 → packed_bcd_to_freq (freq_to_packed_bcd f) = f) ∧
    (∀ f, f < 2 ^ 32 → decodeAsciiDecimal (((build_freq_command 65 f).drop 2).take 11) = f) := by
  refine ⟨?_, fun f hf => yaesu_round_trip f hf, ?_, fun f hf => kenwood_field_decodes f hf⟩
  · intro f hf
    unfold bcd_to_freq
    have hmod : f % 10 ^ (2 * 5) = f :=
      Nat.mod_eq_of_lt (by calc f < 2 ^ 32 := hf
                              _ < 10 ^ (2 * 5) := by norm_num)
    have h := bcd_loop_spec 5 f 0 1
      (by rw [hmod]; omega)
      (by norm_num)
    rw [h, hmod]
    omega
  · intro f hf h10
    rw [yaesu_round_trip f hf]
    omega

/-- Witness for C2 at the end-to-end scenario frequency 14250000 Hz. -/
theorem C2_frequency_round_trips_witness :
    (14250000 < 2 ^ 32 ∧ bcd_to_freq (freq_to_bcd 14250000 5) = 14250000) ∧
    (14250000 < 10 ^ 9 ∧
      packed_bcd_to_freq (freq_to_packed_bcd 14250000) = 10 * (14250000 / 10)) ∧
    (14250000 % 10 = 0 ∧ packed_bcd_to_freq (freq_to_packed_bcd 14250000) = 14250000) ∧
    decodeAsciiDecimal (((build_freq_command 65 14250000).drop 2).take 11) = 14250000 :=
  ⟨⟨by norm_num, C2_frequency_round_trips.1 14250000 (by norm_num)⟩,
   ⟨by norm_num, C2_frequency_round_trips.2.1 14250000 (by norm_num)⟩,
   ⟨by norm_num, C2_frequency_round_trips.2.2.1 14250000 (by norm_num) (by norm_num)⟩,
   C2_frequency_round_trips.2.2.2 14250000 (by norm_num)⟩

/-! ### Helper lemmas for the response parsers (C5) -/

/-- The Kenwood parser loop never changes which ack callback is
registered. -/
theorem kenwood_fold_ack_flag :
    ∀ (input : List ℕ) (s : KenwoodState) (a : ℕ),
      ((input.foldl kenwood_process_byte (s, a)).1).ackCallback = s.ackCallback := by
  intro input
  induction input with
  | nil => intro s a; rfl
  | cons c rest ih =>
    intro s a
    rw [List.foldl_cons]
    have h2 : (kenwood_process_byte (s, a) c).1.ackCallback = s.ackCallback := rfl
    rw [← h2]
    exact ih _ _

/-- Bytes other than `';'` never invoke the Kenwood ack callback. -/
theorem kenwood_fold_no_semi_acks :
    ∀ (input : List ℕ), (∀ b ∈ input, b ≠ 59) → ∀ (s : KenwoodState) (a : ℕ),
      (input.foldl kenwood_process_byte (s, a)).2 = a := by
  intro input
  induction input with
  | nil => intro _ s a; rfl
  | cons c rest ih =>
    intro hne s a
    have hc : c ≠ 59 := hne c (by simp)
    have hrest : ∀ b ∈ rest, b ≠ 59 := fun b hb => hne b (by simp [hb])
    rw [List.foldl_cons]
    have h2 : (kenwood_process_byte (s, a) c).2 = a := by
      simp [kenwood_process_byte, hc]
    exact (ih hrest _ _).trans h2

/-- Feeding terminator-free bytes: the Kenwood buffer length advances
modulo 257 (it silently clears each time a byte would make it exceed
256). -/
theorem kenwood_fold_no_semi_len :
    ∀ (input : List ℕ), (∀ b ∈ input, b ≠ 59) → ∀ (s : KenwoodState) (a : ℕ),
      s.rxBuffer.length ≤ 256 →
      ((input.foldl kenwood_process_byte (s, a)).1).rxBuffer.length =
        (s.rxBuffer.length + input.length) % 257 := by
  intro input
  induction input with
  | nil =>
    intro _ s a hlen
    simp only [List.foldl_nil, List.length_nil, Nat.add_zero]
    omega
  | cons c rest ih =>
    intro hne s a hlen
    have hc : c ≠ 59 := hne c (by simp)
    have hrest : ∀ b ∈ rest, b ≠ 59 := fun b hb => hne b (by simp [hb])
    rw [List.foldl_cons]
    have hstep : kenwood_process_byte (s, a) c =
        ({ s with rxBuffer :=
            if 256 < (s.rxBuffer ++ [c]).length then [] else s.rxBuffer ++ [c] }, a) := by
      simp [kenwood_process_byte, hc]
    rw [hstep]
    by_cases hov : 256 < s.rxBuffer.length + 1
    · have hb : ({ s with rxBuffer :=
          if 256 < (s.rxBuffer ++ [c]).length then [] else s.rxBuffer ++ [c] } :
            KenwoodState).rxBuffer.length ≤ 256 := by
        simp [List.length_append, hov]
      rw [ih hrest _ a hb]
      simp [List.length_append, hov]
      omega
    · have hb : ({ s with rxBuffer :=
          if 256 < (s.rxBuffer ++ [c]).length then [] else s.rxBuffer ++ [c] } :
            KenwoodState).rxBuffer.length ≤ 256 := by
        simp [List.length_append, hov]
        omega
      rw [ih hrest _ a hb]
      simp [List.length_append, hov]
      omega

/-- A terminator-free prefix followed by `';'` invokes the registered
Kenwood ack callback exactly once and leaves the buffer empty. -/
theorem kenwood_terminator_spec :
    ∀ (p : List ℕ), (∀ b ∈ p, b ≠ 59) → ∀ (s : KenwoodState) (a : ℕ),
      s.ackCallback = true →
      ((p ++ [59]).foldl kenwood_process_byte (s, a)).2 = a + 1 ∧
      (((p ++ [59]).foldl kenwood_process_byte (s, a)).1).rxBuffer = [] := by
  intro p hp s a hack
  rw [List.foldl_append]
  have hacks : (p.foldl kenwood_process_byte (s, a)).2 = a :=
    kenwood_fold_no_semi_acks p hp s a
  have hflag : (p.foldl kenwood_process_byte (s, a)).1.ackCallback = true := by
    rw [kenwood_fold_ack_flag]; exact hack
  simp only [List.foldl_cons, List.foldl_nil]
  have heta : p.foldl kenwood_process_byte (s, a) =
      ((p.foldl kenwood_process_byte (s, a)).1, (p.foldl kenwood_process_byte (s, a)).2) := rfl
  rw [heta, hacks]
  have hstep : kenwood_process_byte ((p.foldl kenwood_process_byte (s, a)).1, a) 59 =
      ({ (p.foldl kenwood_process_byte (s, a)).1 with rxBuffer := [] }, a + 1) := by
    simp [kenwood_process_byte, hflag]
  rw [hstep]
  exact ⟨rfl, rfl⟩

/-- Bytes other than `0xFD` never invoke the Icom ack callback. -/
theorem icom_fold_no_fd_acks :
    ∀ (input : List ℕ), (∀ b ∈ input, b ≠ 253) → ∀ (s : IcomState) (a : ℕ),
      (input.foldl icom_process_byte (s, a)).2 = a := by
  intro input
  induction input with
  | nil => intro _ s a; rfl
  | cons c rest ih =>
    intro hne s a
    have hc : c ≠ 253 := hne c (by simp)
    have hrest : ∀ b ∈ rest, b ≠ 253 := fun b hb => hne b (by simp [hb])
    rw [List.foldl_cons]
    have h2 : (icom_process_byte (s, a) c).2 = a := by
      simp [icom_process_byte, hc]
    exact (ih hrest _ _).trans h2

/-- Feeding end-marker-free bytes: the Icom buffer length advances
modulo 257. -/
theorem icom_fold_no_fd_len :
    ∀ (input : List ℕ), (∀ b ∈ input, b ≠ 253) → ∀ (s : IcomState) (a : ℕ),
      s.rxBuffer.length ≤ 256 →
      ((input.foldl icom_process_byte (s, a)).1).rxBuffer.length =
        (s.rxBuffer.length + input.length) % 257 := by
  intro input
  induction input with
  | nil =>
    intro _ s a hlen
    simp only [List.foldl_nil, List.length_nil, Nat.add_zero]
    omega
  | cons c rest ih =>
    intro hne s a hlen
    have hc : c ≠ 253 := hne c (by simp)
    have hrest : ∀ b ∈ rest, b ≠ 253 := fun b hb => hne b (by simp [hb])
    rw [List.foldl_cons]
    have hstep : icom_process_byte (s, a) c =
        ({ s with rxBuffer :=
            if 256 < (s.rxBuffer ++ [c]).length then [] else s.rxBuffer ++ [c] }, a) := by
      simp [icom_process_byte, hc]
    rw [hstep]
    by_cases hov : 256 < s.rxBuffer.length + 1
    · have hb : ({ s with rxBuffer :=
          if 256 < (s.rxBuffer ++ [c]).length then [] else s.rxBuffer ++ [c] } :
            IcomState).rxBuffer.length ≤ 256 := by
        simp [List.length_append, hov]
      rw [ih hrest _ a hb]
      simp [List.length_append, hov]
      omega
    · have hb : ({ s with rxBuffer :=
          if 256 < (s.rxBuffer ++ [c]).length then [] else s.rxBuffer ++ [c] } :
            IcomState).rxBuffer.length ≤ 256 := by
        simp [List.length_append, hov]
        omega
      rw [ih hrest _ a hb]
      simp [List.length_append, hov]
      omega

/-- End-marker-free bytes that fit under the overflow cap simply
accumulate in the Icom buffer, with no ack invocations. -/
theorem icom_fold_accumulate :
    ∀ (q : List ℕ), (∀ b ∈ q, b ≠ 253) → ∀ (s : IcomState) (a : ℕ),
      s.rxBuffer.length + q.length ≤ 256 →
      q.foldl icom_process_byte (s, a) = ({ s with rxBuffer := s.rxBuffer ++ q }, a) := by
  intro q
  induction q with
  | nil =>
    intro _ s a _
    simp
  | cons c rest ih =>
    intro hne s a hlen
    simp only [List.length_cons] at hlen
    have hc : c ≠ 253 := hne c (by simp)
    have hrest : ∀ b ∈ rest, b ≠ 253 := fun b hb => hne b (by simp [hb])
    rw [List.foldl_cons]
    have hstep : icom_process_byte (s, a) c =
        ({ s with rxBuffer := s.rxBuffer ++ [c] }, a) := by
      have hno : ¬(256 < (s.rxBuffer ++ [c]).length) := by
        simp [List.length_append]
        omega
      simp [icom_process_byte, hc, hno]
      omega
    rw [hstep]
    rw [ih hrest _ a (by simp; omega)]
    simp

/-- Feeding one complete CI-V frame `FE FE x y cmd data... FD` to the
Icom parser from an empty buffer: the ack callback (if registered)
fires exactly when the byte at offset 4 is `0xFB`, and the buffer is
empty afterwards. -/
theorem icom_frame_spec :
    ∀ (s : IcomState) (x y cmd : ℕ) (data : List ℕ) (a : ℕ),
      s.rxBuffer = [] → x ≠ 253 → y ≠ 253 → cmd ≠ 253 →
      (∀ b ∈ data, b ≠ 253) → data.length ≤ 251 →
      (([254, 254, x, y, cmd] ++ data ++ [253]).foldl icom_process_byte (s, a)).2 =
        (if cmd = 251 ∧ s.ackCallback then a + 1 else a) ∧
      ((([254, 254, x, y, cmd] ++ data ++ [253]).foldl icom_process_byte (s, a)).1).rxBuffer =
        [] := by
  intro s x y cmd data a hbuf hx hy hcmd hdata hlen
  have hpre : ∀ b ∈ [254, 254, x, y, cmd] ++ data, b ≠ 253 := by
    intro b hb
    simp only [List.mem_append, List.mem_cons, List.not_mem_nil] at hb
    rcases hb with hb | hb
    · rcases hb with h | h | h | h | h | h
      · omega
      · omega
      · omega
      · omega
      · omega
      · exact absurd h (by simp)
    · exact hdata b hb
  have hassoc : [254, 254, x, y, cmd] ++ data ++ [253] =
      ([254, 254, x, y, cmd] ++ data) ++ [253] := by
    simp [List.append_assoc]
  rw [hassoc, List.foldl_append]
  rw [icom_fold_accumulate _ hpre s a (by simp [hbuf]; omega)]
  rw [hbuf]
  simp only [List.nil_append, List.foldl_cons, List.foldl_nil]
  have hgoal : icom_process_byte ({ s with rxBuffer := [254, 254, x, y, cmd] ++ data }, a) 253 =
      ({ s with rxBuffer := [] }, if cmd = 251 ∧ s.ackCallback then a + 1 else a) := by
    have hgd : (([254, 254, x, y, cmd] ++ data) ++ [253]).getD 4 0 = cmd := by
      simp [List.getD_append]
    have hlen6 : 6 ≤ (([254, 254, x, y, cmd] ++ data) ++ [253]).length := by
      simp
    simp only [icom_process_byte]
    simp [hgd]
  rw [hgoal]
  exact ⟨rfl, rfl⟩

/-- Claim C5 counterexample: an Icom NAK frame
`FE FE E0 94 FA FD` is a valid terminator on a 6-byte buffer beginning
with the double preamble, yet — with an ack callback registered — it
causes zero acknowledge-callback invocations, because
`IcomCiv::process_response` only fires the callback when the byte at
offset 4 is `0xFB` (ACK). -/
theorem C5_counterexample_icom_nak_frame :
    (icom_process_response
        ({ serial := true, radioAddr := 148, ready := true,
           ackCallback := true } : IcomState)
        [254, 254, 224, 148, 250, 253]).2 = 0 ∧
    ((icom_process_response
        ({ serial := true, radioAddr := 148, ready := true,
           ackCallback := true } : IcomState)
        [254, 254, 224, 148, 250, 253]).1).rxBuffer = [] := by
  decide

/-- Claim C5 (amended): feeding either parser a byte sequence that
never completes a frame leaves the acknowledge count at zero and
silently clears the buffer whenever it would exceed 256 bytes (the
buffer length after n such bytes from empty is n mod 257); feeding the
Kenwood parser a `';'` terminator causes exactly one
acknowledge-callback invocation and leaves the buffer empty; feeding
the Icom parser a complete `0xFD`-terminated frame of at least 6 bytes
beginning with the double preamble leaves the buffer empty and invokes
the acknowledge callback exactly once if the byte at offset 4 is `0xFB`
(ACK) and zero times otherwise. -/
theorem C5_parser_acks_and_buffer :
    (∀ (s : KenwoodState) (input : List ℕ), (∀ b ∈ input, b ≠ 59) → s.rxBuffer = [] →
      (kenwood_process_response s input).2 = 0 ∧
      ((kenwood_process_response s input).1).rxBuffer.length = input.length % 257) ∧
    (∀ (s : KenwoodState) (p : List ℕ), (∀ b ∈ p, b ≠ 59) → s.ackCallback = true →
      (kenwood_process_response s (p ++ [59])).2 = 1 ∧
      ((kenwood_process_response s (p ++ [59])).1).rxBuffer = []) ∧
    (∀ (s : IcomState) (input : List ℕ), (∀ b ∈ input, b ≠ 253) → s.rxBuffer = [] →
      (icom_process_response s input).2 = 0 ∧
      ((icom_process_response s input).1).rxBuffer.length = input.length % 257) ∧
    (∀ (s : IcomState) (x y cmd : ℕ) (data : List ℕ),
      s.rxBuffer = [] → s.ackCallback = true →
      x ≠ 253 → y ≠ 253 → cmd ≠ 253 → (∀ b ∈ data, b ≠ 253) → data.length ≤ 251 →
      (icom_process_response s ([254, 254, x, y, cmd] ++ data ++ [253])).2 =
        (if cmd = 251 then 1 else 0) ∧
      ((icom_process_response s ([254, 254, x, y, cmd] ++ data ++ [253])).1).rxBuffer = []) := by
  refine ⟨?_, ?_, ?_, ?_⟩
  · intro s input hin hbuf
    unfold kenwood_process_response
    refine ⟨kenwood_fold_no_semi_acks input hin s 0, ?_⟩
    have h := kenwood_fold_no_semi_len input hin s 0 (by rw [hbuf]; simp)
    rw [h, hbuf]
    simp
  · intro s p hp hack
    unfold kenwood_process_response
    have h := kenwood_terminator_spec p hp s 0 hack
    exact ⟨h.1, h.2⟩
  · intro s input hin hbuf
    unfold icom_process_response
    refine ⟨icom_fold_no_fd_acks input hin s 0, ?_⟩
    have h := icom_fold_no_fd_len input hin s 0 (by rw [hbuf]; simp)
    rw [h, hbuf]
    simp
  · intro s x y cmd data hbuf hack hx hy hcmd hdata hlen
    unfold icom_process_response
    have h := icom_frame_spec s x y cmd data 0 hbuf hx hy hcmd hdata hlen
    refine ⟨?_, h.2⟩
    rw [h.1, hack]
    by_cases hc : cmd = 251 <;> simp [hc]

/-- Witness for C5: concrete runs of both parsers — two non-terminator
bytes, a terminated Kenwood frame, a bare double preamble, and a
complete Icom ACK frame. -/
theorem C5_parser_acks_and_buffer_witness :
    ((kenwood_process_response ({ serial := true, ackCallback := true } : KenwoodState)
        [70, 65]).2 = 0 ∧
      ((kenwood_process_response ({ serial := true, ackCallback := true } : KenwoodState)
        [70, 65]).1).rxBuffer.length = [70, 65].length % 257) ∧
    ((kenwood_process_response ({ serial := true, ackCallback := true } : KenwoodState)
        ([70, 65] ++ [59])).2 = 1 ∧
      ((kenwood_process_response ({ serial := true, ackCallback := true } : KenwoodState)
        ([70, 65] ++ [59])).1).rxBuffer = []) ∧
    ((icom_process_response
        ({ serial := true, radioAddr := 148, ackCallback := true } : IcomState)
        [254, 254]).2 = 0 ∧
      ((icom_process_response
        ({ serial := true, radioAddr := 148, ackCallback := true } : IcomState)
        [254, 254]).1).rxBuffer.length = [254, 254].length % 257) ∧
    ((icom_process_response
        ({ serial := true, radioAddr := 148, ackCallback := true } : IcomState)
        ([254, 254, 224, 148, 251] ++ [] ++ [253])).2 = (if 251 = 251 then 1 else 0) ∧
      ((icom_process_response
        ({ serial := true, radioAddr := 148, ackCallback := true } : IcomState)
        ([254, 254, 224, 148, 251] ++ [] ++ [253])).1).rxBuffer = []) :=
  ⟨C5_parser_acks_and_buffer.1 _ [70, 65] (by decide) rfl,
   C5_parser_acks_and_buffer.2.1 _ [70, 65] (by decide) rfl,
   C5_parser_acks_and_buffer.2.2.1 _ [254, 254] (by decide) rfl,
   C5_parser_acks_and_buffer.2.2.2 _ 224 148 251 [] rfl rfl (by decide) (by decide) (by decide)
     (by decide) (by decide)⟩

/-! ### Helper lemmas for the resampler (C7, C8, C10) -/

/-- Pushing one sample preserves the resampler invariant. -/
theorem push_inv (r : Resampler) (x : ℚ) (h : ResamplerInv r) :
    ResamplerInv (r.push x) := by
  obtain ⟨h0, h1, h2⟩ := h
  refine ⟨h0, Nat.mod_lt _ h0, ?_⟩
  simp [Resampler.push, Resampler.totalTaps, List.length_set] at h2 ⊢
  exact h2

/-- The decimation loop preserves the resampler invariant. -/
theorem decimateLoop_inv :
    ∀ (input : List ℚ) (r : Resampler) (i : ℕ) (out : List ℚ), ResamplerInv r →
      ResamplerInv (Resampler.decimateLoop r input i out).1 := by
  intro input
  induction input with
  | nil => intro r i out h; exact h
  | cons x rest ih =>
    intro r i out h
    simp only [Resampler.decimateLoop]
    by_cases hdiv : (i + 1) % (r.push x).ratio_ = 0
    · rw [if_pos hdiv]; exact ih _ _ _ (push_inv r x h)
    · rw [if_neg hdiv]; exact ih _ _ _ (push_inv r x h)

/-- The per-sample interpolation loop preserves the invariant. -/
theorem interpolateSample_inv (r : Resampler) (x : ℚ) (h : ResamplerInv r) :
    ResamplerInv (r.interpolateSample x).1 := by
  unfold Resampler.interpolateSample
  have aux : ∀ (l : List ℕ) (p : Resampler × List ℚ), ResamplerInv p.1 →
      ResamplerInv ((l.foldl (fun p phase =>
        let sample := if phase = 0 then x * (r.ratio_ : ℚ) else 0
        let r1 := p.1.push sample
        (r1, p.2 ++ [r1.applyFilter])) p).1) := by
    intro l
    induction l with
    | nil => intro p hp; exact hp
    | cons j t ih =>
      intro p hp
      rw [List.foldl_cons]
      exact ih _ (push_inv _ _ hp)
  exact aux _ (r, []) h

/-- `interpolate` preserves the invariant. -/
theorem interpolate_inv :
    ∀ (input : List ℚ) (r : Resampler), ResamplerInv r →
      ResamplerInv (r.interpolate input).1 := by
  intro input
  have aux : ∀ (l : List ℚ) (p : Resampler × List ℚ), ResamplerInv p.1 →
      ResamplerInv ((l.foldl (fun p x =>
        let q := Resampler.interpolateSample p.1 x
        (q.1, p.2 ++ q.2)) p).1) := by
    intro l
    induction l with
    | nil => intro p hp; exact hp
    | cons z t ih =>
      intro p hp
      rw [List.foldl_cons]
      exact ih _ (interpolateSample_inv _ _ hp)
  intro r h
  exact aux input (r, []) h

/-- `reset` preserves the invariant. -/
theorem reset_inv (r : Resampler) (h : ResamplerInv r) : ResamplerInv r.reset := by
  obtain ⟨h0, h1, h2⟩ := h
  refine ⟨h0, h0, ?_⟩
  simp [Resampler.reset, Resampler.totalTaps] at h2 ⊢
  exact h2

/-- Claim C10: for every resampler constructed with ratio ≥ 1 and
taps_per_phase ≥ 1 the invariant `0 ≤ history_pos_ < total_taps_`
(together with the history buffer having exactly `total_taps_`
entries) holds after construction and is preserved by `decimate`,
`interpolate` and `reset`; under the invariant the modulus
`total_taps_` is nonzero and every filter index
`(history_pos_ + i) % total_taps_` is within the history buffer. -/
theorem C10_position_invariant :
    (∀ (ratio_in taps : ℕ) (coeffs : List ℚ), 1 ≤ ratio_in → 1 ≤ taps →
      ResamplerInv (mkResampler ratio_in taps coeffs)) ∧
    (∀ (r : Resampler) (input : List ℚ), ResamplerInv r →
      ResamplerInv (r.decimate input).1 ∧ ResamplerInv (r.interpolate input).1 ∧
      ResamplerInv r.reset) ∧
    (∀ (r : Resampler), ResamplerInv r →
      r.totalTaps ≠ 0 ∧ ∀ i, (r.history_pos_ + i) % r.totalTaps < r.history_.length) := by
  refine ⟨?_, ?_, ?_⟩
  · intro ratio_in taps coeffs hr ht
    refine ⟨?_, ?_, ?_⟩
    · simp [mkResampler, Resampler.totalTaps]
      omega
    · simp [mkResampler, Resampler.totalTaps]
      omega
    · simp [mkResampler, Resampler.totalTaps]
  · intro r input h
    exact ⟨decimateLoop_inv input r 0 [] h, interpolate_inv input r h, reset_inv r h⟩
  · intro r h
    obtain ⟨h0, h1, h2⟩ := h
    refine ⟨by omega, ?_⟩
    intro i
    rw [h2]
    exact Nat.mod_lt _ h0

/-- Output count of the decimation loop: one output for each multiple
of `ratio_` reached by the 1-indexed running counter. -/
theorem decimateLoop_length :
    ∀ (input : List ℚ) (r : Resampler) (i : ℕ) (out : List ℚ), 1 ≤ r.ratio_ →
      ((Resampler.decimateLoop r input i out).2).length =
        out.length + ((i + input.length) / r.ratio_ - i / r.ratio_) := by
  intro input
  induction input with
  | nil =>
    intro r i out h
    simp [Resampler.decimateLoop]
  | cons x rest ih =>
    intro r i out h
    simp only [Resampler.decimateLoop]
    have hr : (r.push x).ratio_ = r.ratio_ := rfl
    rw [hr]
    have h3 : i + (x :: rest).length = i + 1 + rest.length := by
      simp
      omega
    by_cases hdiv : (i + 1) % r.ratio_ = 0
    · rw [if_pos hdiv, ih _ _ _ (by rw [hr]; exact h), hr, h3]
      have h1 : (i + 1) / r.ratio_ = i / r.ratio_ + 1 := by
        rw [Nat.succ_div, if_pos (Nat.dvd_of_mod_eq_zero hdiv)]
      have h2 : (i + 1) / r.ratio_ ≤ (i + 1 + rest.length) / r.ratio_ :=
        Nat.div_le_div_right (by omega)
      simp only [List.length_append, List.length_cons, List.length_nil]
      omega
    · rw [if_neg hdiv, ih _ _ _ (by rw [hr]; exact h), hr, h3]
      have h1 : (i + 1) / r.ratio_ = i / r.ratio_ := by
        rw [Nat.succ_div, if_neg (fun hd => hdiv (Nat.mod_eq_zero_of_dvd hd))]
        omega
      omega

/-- Each input sample contributes exactly `ratio_` interpolation
outputs, and the ratio member never changes. -/
theorem interpolateSample_spec (r : Resampler) (x : ℚ) :
    ((r.interpolateSample x).2).length = r.ratio_ ∧
    ((r.interpolateSample x).1).ratio_ = r.ratio_ := by
  unfold Resampler.interpolateSample
  have aux : ∀ (l : List ℕ) (p : Resampler × List ℚ),
      ((l.foldl (fun p phase =>
        let sample := if phase = 0 then x * (r.ratio_ : ℚ) else 0
        let r1 := p.1.push sample
        (r1, p.2 ++ [r1.applyFilter])) p).2).length = p.2.length + l.length ∧
      ((l.foldl (fun p phase =>
        let sample := if phase = 0 then x * (r.ratio_ : ℚ) else 0
        let r1 := p.1.push sample
        (r1, p.2 ++ [r1.applyFilter])) p).1).ratio_ = p.1.ratio_ := by
    intro l
    induction l with
    | nil => intro p; exact ⟨rfl, rfl⟩
    | cons j t ih =>
      intro p
      rw [List.foldl_cons]
      refine ⟨((ih _).1).trans ?_, ((ih _).2).trans rfl⟩
      simp only [List.length_append, List.length_cons, List.length_nil]
      omega
  have h := aux (List.range r.ratio_) (r, [])
  simp only [List.length_range, List.length_nil, Nat.zero_add] at h
  exact h

/-- `interpolate` produces `ratio_` outputs per input sample. -/
theorem interpolate_length :
    ∀ (input : List ℚ) (r : Resampler),
      ((r.interpolate input).2).length = input.length * r.ratio_ := by
  have aux : ∀ (l : List ℚ) (p : Resampler × List ℚ),
      ((l.foldl (fun p x =>
        let q := Resampler.interpolateSample p.1 x
        (q.1, p.2 ++ q.2)) p).2).length = p.2.length + l.length * p.1.ratio_ := by
    intro l
    induction l with
    | nil => intro p; simp
    | cons z t ih =>
      intro p
      rw [List.foldl_cons]
      have h := ih (((p.1.interpolateSample z).1), p.2 ++ (p.1.interpolateSample z).2)
      refine h.trans ?_
      simp only [List.length_append, (interpolateSample_spec p.1 z).1,
        (interpolateSample_spec p.1 z).2, List.length_cons]
      rw [Nat.succ_mul]
      omega
  intro input r
  have h := aux input (r, [])
  simpa using h

/-- Claim C7: for every resampler with (positive) ratio R and every
input of length n, `decimate` returns exactly `n / R` output samples
(one after every R-th push, counted 1-indexed within the call and not
persisted across calls) and `interpolate` returns exactly `n * R`
output samples (one after each of the R pushes per input sample). -/
theorem C7_resampler_output_lengths :
    ∀ (r : Resampler) (input : List ℚ), 1 ≤ r.ratio_ →
      ((r.decimate input).2).length = input.length / r.ratio_ ∧
      ((r.interpolate input).2).length = input.length * r.ratio_ := by
  intro r input h
  refine ⟨?_, interpolate_length input r⟩
  unfold Resampler.decimate
  rw [decimateLoop_length input r 0 [] h]
  simp

/-- Reading any position of an all-zero buffer with default 0 yields
zero. -/
theorem getD_zero_of_all_zero :
    ∀ (l : List ℚ) (j : ℕ), (∀ a ∈ l, a = 0) → l.getD j 0 = 0 := by
  intro l
  induction l with
  | nil => intro j _; simp
  | cons a t ih =>
    intro j h
    cases j with
    | zero => simpa using h a (by simp)
    | succ m =>
      simp only [List.getD_cons_succ]
      exact ih m (fun b hb => h b (by simp [hb]))

/-- The filter output over an all-zero history is zero, whatever the
coefficients. -/
theorem applyFilter_zero (r : Resampler) (h : ∀ a ∈ r.history_, a = 0) :
    r.applyFilter = 0 := by
  unfold Resampler.applyFilter
  have aux : ∀ (l : List ℕ) (s : ℚ),
      l.foldl (fun sum i =>
        sum + r.history_.getD ((r.history_pos_ + i) % r.totalTaps) 0 * r.coeffs_.getD i 0) s
        = s := by
    intro l
    induction l with
    | nil => intro s; rfl
    | cons j t ih =>
      intro s
      rw [List.foldl_cons, getD_zero_of_all_zero _ _ h]
      simpa using ih s
  exact aux _ 0

/-- Pushing a zero into an all-zero history keeps it all-zero. -/
theorem push_zero_all (r : Resampler) (h : ∀ a ∈ r.history_, a = 0) :
    ∀ a ∈ (r.push 0).history_, a = 0 := by
  intro a ha
  simp only [Resampler.push] at ha
  rcases List.mem_or_eq_of_mem_set ha with h1 | h1
  · exact h a h1
  · exact h1

/-- Decimating all-zero input from an all-zero history appends only
zeros. -/
theorem decimateLoop_zeros :
    ∀ (input : List ℚ), (∀ z ∈ input, z = 0) →
      ∀ (r : Resampler) (i : ℕ) (out : List ℚ),
        (∀ a ∈ r.history_, a = 0) → (∀ y ∈ out, y = 0) →
        ∀ y ∈ (Resampler.decimateLoop r input i out).2, y = 0 := by
  intro input
  induction input with
  | nil => intro _ r i out _ hout; exact hout
  | cons x rest ih =>
    intro hin r i out hr hout
    have hx : x = 0 := hin x (by simp)
    have hrest : ∀ z ∈ rest, z = 0 := fun z hz => hin z (by simp [hz])
    subst hx
    simp only [Resampler.decimateLoop]
    have hr1 : ∀ a ∈ (r.push 0).history_, a = 0 := push_zero_all r hr
    by_cases hdiv : (i + 1) % (r.push 0).ratio_ = 0
    · rw [if_pos hdiv]
      refine ih hrest _ _ _ hr1 ?_
      intro y hy
      rcases List.mem_append.mp hy with h1 | h1
      · exact hout y h1
      · have : y = (r.push 0).applyFilter := by simpa using h1
        rw [this, applyFilter_zero _ hr1]
    · rw [if_neg hdiv]
      exact ih hrest _ _ _ hr1 hout

/-- Interpolating a zero sample from an all-zero history keeps the
history all-zero and emits only zeros. -/
theorem interpolateSample_zeros (r : Resampler) (h : ∀ a ∈ r.history_, a = 0) :
    (∀ a ∈ ((r.interpolateSample 0).1).history_, a = 0) ∧
    (∀ y ∈ (r.interpolateSample 0).2, y = 0) := by
  unfold Resampler.interpolateSample
  have aux : ∀ (l : List ℕ) (p : Resampler × List ℚ),
      (∀ a ∈ p.1.history_, a = 0) → (∀ y ∈ p.2, y = 0) →
      (∀ a ∈ ((l.foldl (fun p phase =>
        let sample := if phase = 0 then (0 : ℚ) * (r.ratio_ : ℚ) else 0
        let r1 := p.1.push sample
        (r1, p.2 ++ [r1.applyFilter])) p).1).history_, a = 0) ∧
      (∀ y ∈ (l.foldl (fun p phase =>
        let sample := if phase = 0 then (0 : ℚ) * (r.ratio_ : ℚ) else 0
        let r1 := p.1.push sample
        (r1, p.2 ++ [r1.applyFilter])) p).2, y = 0) := by
    intro l
    induction l with
    | nil => intro p hp hout; exact ⟨hp, hout⟩
    | cons j t ih =>
      intro p hp hout
      rw [List.foldl_cons]
      have hsample : (if j = 0 then (0 : ℚ) * (r.ratio_ : ℚ) else 0) = 0 := by
        by_cases hj : j = 0 <;> simp [hj]
      rw [hsample]
      have hp1 : ∀ a ∈ (p.1.push 0).history_, a = 0 := push_zero_all p.1 hp
      refine ih _ hp1 ?_
      intro y hy
      rcases List.mem_append.mp hy with h1 | h1
      · exact hout y h1
      · have : y = (p.1.push 0).applyFilter := by simpa using h1
        rw [this, applyFilter_zero _ hp1]
  exact aux _ (r, []) h (by simp)

/-- Interpolating all-zero input from an all-zero history emits only
zeros. -/
theorem interpolate_zeros :
    ∀ (n : ℕ) (r : Resampler), (∀ a ∈ r.history_, a = 0) →
      ∀ y ∈ (r.interpolate (List.replicate n 0)).2, y = 0 := by
  have aux : ∀ (l : List ℚ), (∀ z ∈ l, z = 0) → ∀ (p : Resampler × List ℚ),
      (∀ a ∈ p.1.history_, a = 0) → (∀ y ∈ p.2, y = 0) →
      ∀ y ∈ (l.foldl (fun p x =>
        let q := Resampler.interpolateSample p.1 x
        (q.1, p.2 ++ q.2)) p).2, y = 0 := by
    intro l
    induction l with
    | nil => intro _ p _ hout; exact hout
    | cons z t ih =>
      intro hl p hp hout
      have hz : z = 0 := hl z (by simp)
      have ht : ∀ w ∈ t, w = 0 := fun w hw => hl w (by simp [hw])
      subst hz
      rw [List.foldl_cons]
      have hq := interpolateSample_zeros p.1 hp
      refine ih ht _ hq.1 ?_
      intro y hy
      rcases List.mem_append.mp hy with h1 | h1
      · exact hout y h1
      · exact hq.2 y h1
  intro n r hr
  refine aux (List.replicate n 0) (fun z hz => List.eq_of_mem_replicate hz) (r, []) hr (by simp)

/-- Claim C8: `reset` zeroes the history and the circular position
while leaving the coefficient vector unchanged; when the history has
its constructed length `total_taps_` (as it always does, cf. C10),
`reset` returns the resampler exactly to the post-construction state;
and after `reset`, `decimate` or `interpolate` on an all-zero input
produces an all-zero output sequence, regardless of prior state. -/
theorem C8_reset_restores_initial_state :
    ∀ (r : Resampler) (n : ℕ),
      (r.reset).coeffs_ = r.coeffs_ ∧
      (r.reset).history_pos_ = 0 ∧
      (r.history_.length = r.totalTaps →
        r.reset = mkResampler r.ratio_ r.taps_per_phase_ r.coeffs_) ∧
      (∀ y ∈ ((r.reset).decimate (List.replicate n 0)).2, y = 0) ∧
      (∀ y ∈ ((r.reset).interpolate (List.replicate n 0)).2, y = 0) := by
  intro r n
  have hzero : ∀ a ∈ (r.reset).history_, a = 0 := by
    intro a ha
    simp only [Resampler.reset] at ha
    exact List.eq_of_mem_replicate ha
  refine ⟨rfl, rfl, ?_, ?_, ?_⟩
  · intro h
    obtain ⟨ra, ta, co, hi, po⟩ := r
    simp only [Resampler.reset, mkResampler, Resampler.totalTaps] at h ⊢
    rw [h]
  · intro y hy
    exact decimateLoop_zeros (List.replicate n 0)
      (fun z hz => List.eq_of_mem_replicate hz) _ 0 [] hzero (by simp) y hy
  · exact interpolate_zeros n (r.reset) hzero


/-- Witness for C7 at the default construction (ratio 6, 8 taps per
phase) on a 13-sample input. -/
theorem C7_resampler_output_lengths_witness :
    1 ≤ (mkResampler 6 8 []).ratio_ ∧
    (((mkResampler 6 8 []).decimate (List.replicate 13 0)).2).length =
      (List.replicate 13 (0 : ℚ)).length / (mkResampler 6 8 []).ratio_ ∧
    (((mkResampler 6 8 []).interpolate (List.replicate 13 0)).2).length =
      (List.replicate 13 (0 : ℚ)).length * (mkResampler 6 8 []).ratio_ :=
  ⟨by decide,
   (C7_resampler_output_lengths (mkResampler 6 8 []) (List.replicate 13 0) (by decide)).1,
   (C7_resampler_output_lengths (mkResampler 6 8 []) (List.replicate 13 0) (by decide)).2⟩

/-- Witness for C8 at the default construction, discharging the
history-length hypothesis of the reset-equals-construction clause. -/
theorem C8_reset_restores_initial_state_witness :
    (mkResampler 6 8 []).history_.length = (mkResampler 6 8 []).totalTaps ∧
    ((mkResampler 6 8 []).reset =
      mkResampler (mkResampler 6 8 []).ratio_ (mkResampler 6 8 []).taps_per_phase_
        (mkResampler 6 8 []).coeffs_) ∧
    (∀ y ∈ (((mkResampler 6 8 []).reset).decimate (List.replicate 5 0)).2, y = 0) :=
  ⟨by decide,
   (C8_reset_restores_initial_state (mkResampler 6 8 []) 5).2.2.1 (by decide),
   (C8_reset_restores_initial_state (mkResampler 6 8 []) 5).2.2.2.1⟩

/-- Witness for C10 at the default construction. -/
theorem C10_position_invariant_witness :
    (1 ≤ 6 ∧ 1 ≤ 8 ∧ ResamplerInv (mkResampler 6 8 (List.replicate 48 1))) ∧
    ResamplerInv ((mkResampler 6 8 (List.replicate 48 1)).decimate
      (List.replicate 13 0)).1 := by
  have h0 := C10_position_invariant.1 6 8 (List.replicate 48 1) (by decide) (by decide)
  exact ⟨⟨by decide, by decide, h0⟩,
    (C10_position_invariant.2.1 (mkResampler 6 8 (List.replicate 48 1))
      (List.replicate 13 0) h0).1⟩

/-- Claim C9: the Elecraft codec behaves identically to the Kenwood
codec on every inherited operation (lifecycle, channel, PTT, status,
callback registration and response parsing — it inherits the Kenwood
member functions unchanged); it differs only in `get_port_config`
returning `"38400,n,8,1"` where Kenwood returns `"9600,n,8,1"`, and in
adding `set_power` (emitting `PC` + 3-digit zero-padded watts + `;`,
whose digit field decodes back to the watts value modulo 1000) and
`set_antenna` (emitting `AN` + digit + `;`), both routed through the
inherited ASCII send primitive `Kenwood::send_command`. -/
theorem C9_elecraft_refines_kenwood :
    elecraft_init = kenwood_init ∧
    elecraft_shutdown = kenwood_shutdown ∧
    elecraft_start = kenwood_start ∧
    elecraft_stop = kenwood_stop ∧
    elecraft_set_channel = kenwood_set_channel ∧
    elecraft_get_channel = kenwood_get_channel ∧
    elecraft_set_ptt = kenwood_set_ptt ∧
    elecraft_is_transmitting = kenwood_is_transmitting ∧
    elecraft_is_ready = kenwood_is_ready ∧
    elecraft_register_send_callback = kenwood_register_send_callback ∧
    elecraft_register_ack_callback = kenwood_register_ack_callback ∧
    elecraft_process_response = kenwood_process_response ∧
    mkElecraft = mkKenwood ∧
    elecraft_get_port_config = "38400,n,8,1" ∧
    kenwood_get_port_config = "9600,n,8,1" ∧
    (∀ (s : KenwoodState) (w : ℕ),
      elecraft_set_power s w =
        kenwood_send_command s
          (strBytes "PC" ++ (padDigits 3 w).map (fun d => 48 + d) ++ strBytes ";")) ∧
    (∀ w, decodeAsciiDecimal ((padDigits 3 w).map (fun d => 48 + d)) = w % 1000) ∧
    (∀ (s : KenwoodState) (a : ℕ),
      elecraft_set_antenna s a =
        kenwood_send_command s (strBytes "AN" ++ [48 + a % 10] ++ strBytes ";")) := by
  refine ⟨rfl, rfl, rfl, rfl, rfl, rfl, rfl, rfl, rfl, rfl, rfl, rfl, rfl, rfl, rfl,
    ?_, ?_, ?_⟩
  · intro s w
    have h1 : strBytes "PC" = [80, 67] := by decide
    have h2 : strBytes ";" = [59] := by decide
    rw [h1, h2]
    rfl
  · intro w
    unfold decodeAsciiDecimal
    rw [List.map_map]
    have h2 : ((fun b => b - 48) ∘ fun d => 48 + d) = id := by
      funext d; simp
    rw [h2, List.map_id]
    unfold decodeDigits
    rw [decodeDigits_foldl]
    norm_num
  · intro s a
    have h1 : strBytes "AN" = [65, 78] := by decide
    have h2 : strBytes ";" = [59] := by decide
    rw [h1, h2]
    rfl

end PAL
